import Mathlib

/-!
Verification of the niri compositor core against its specification.

Shallow embedding conventions:
* Rust `Duration` values are modelled as `Nat` nanoseconds.  `Duration::MAX`
  is `durationMax` nanoseconds; `Duration::saturating_add` caps there and
  `Duration::saturating_sub` is truncated `Nat` subtraction (which saturates
  at zero exactly like the Rust operation).
* `f64` arithmetic on animation values is modelled over `ℝ` (exact reals);
  the clock rate (`Duration::mul_f64`) is modelled as an exact rational
  scaling floored to whole nanoseconds.
* Shared mutable state (`Rc<RefCell<…>>`, `Arc<Inner>`) is modelled by
  explicit state passing: each mutating method returns the updated state.
* `get_monotonic_time` is external; functions that sample it take the
  sampled value as an explicit argument.
-/

namespace Niri

/-! ## Durations (src/animation/clock.rs, std::time::Duration) -/

/-- `Duration::MAX` in nanoseconds: `u64::MAX` seconds plus `999_999_999` ns. -/
def durationMax : Nat := 18446744073709551615 * 1000000000 + 999999999

/-- `Duration::saturating_add`, in nanoseconds. -/
def saturating_add (a b : Nat) : Nat := min (a + b) durationMax

/-- `Duration::saturating_sub`, in nanoseconds.  Truncated `Nat` subtraction
saturates at zero exactly like the Rust operation. -/
def saturating_sub (a b : Nat) : Nat := a - b

/-- `Duration::mul_f64` used by `AdjustableClock::now`: the `f64` rate scaling
is modelled as exact rational multiplication floored to whole nanoseconds. -/
def mul_f64 (d : Nat) (rate : ℚ) : Nat := ((rate * d : ℚ).floor).toNat

/-! ## Clock (src/animation/clock.rs) -/

/-- State of `AdjustableClock` together with its inner `LazyClock` cache
(`time` is the cached raw sample, `none` when cleared). -/
structure AdjustableClock where
  time : Option Nat
  current_time : Nat
  last_seen_time : Nat
  rate : ℚ
  complete_instantly : Bool
deriving DecidableEq, Repr

/-- `LazyClock::now`: return the cached raw time, or cache and return the
freshly sampled monotonic time `fetched`. -/
def LazyClock.now (cache : Option Nat) (fetched : Nat) : Nat × Option Nat :=
  match cache with
  | some t => (t, some t)
  | none => (fetched, some fetched)

/-- `AdjustableClock::now`: sample the raw time; if it is unchanged return the
cached adjusted time, otherwise advance (or retreat) the adjusted time by
`rate · Δraw` with saturating arithmetic.  `fetched` is the monotonic sample
used only when the cache is empty. -/
def AdjustableClock.now (c : AdjustableClock) (fetched : Nat) :
    Nat × AdjustableClock :=
  let tc := LazyClock.now c.time fetched
  let time := tc.1
  if c.last_seen_time = time then
    (c.current_time, { c with time := tc.2 })
  else if c.last_seen_time < time then
    let delta := mul_f64 (time - c.last_seen_time) c.rate
    let cur := saturating_add c.current_time delta
    (cur, { c with time := tc.2, current_time := cur, last_seen_time := time })
  else
    let delta := mul_f64 (c.last_seen_time - time) c.rate
    let cur := saturating_sub c.current_time delta
    (cur, { c with time := tc.2, current_time := cur, last_seen_time := time })

/-- Reduction of `AdjustableClock::now` when a raw sample `t` is cached. -/
theorem AdjustableClock.now_cached (c : AdjustableClock) (t f : Nat)
    (h : c.time = some t) :
    AdjustableClock.now c f =
      if c.last_seen_time = t then (c.current_time, { c with time := some t })
      else if c.last_seen_time < t then
        (saturating_add c.current_time (mul_f64 (t - c.last_seen_time) c.rate),
         ⟨some t, saturating_add c.current_time (mul_f64 (t - c.last_seen_time) c.rate),
          t, c.rate, c.complete_instantly⟩)
      else
        (saturating_sub c.current_time (mul_f64 (c.last_seen_time - t) c.rate),
         ⟨some t, saturating_sub c.current_time (mul_f64 (c.last_seen_time - t) c.rate),
          t, c.rate, c.complete_instantly⟩) := by
  simp only [AdjustableClock.now, LazyClock.now, h]

/-! ## Frame clock (src/frame_clock.rs) -/

/-- `FrameClock` state: last presented time and refresh interval in
nanoseconds (`refresh_interval_ns` is non-zero in the source, enforced by
`NonZeroU64`), plus the VRR flag. -/
structure FrameClock where
  last_presentation_time : Option Nat
  refresh_interval_ns : Option Nat
  vrr : Bool
deriving DecidableEq, Repr

/-- `FrameClock::next_presentation_time`.  The monotonic sample `now0` is
passed explicitly. -/
def FrameClock.next_presentation_time (fc : FrameClock) (now0 : Nat) : Nat :=
  match fc.refresh_interval_ns with
  | none => now0
  | some refresh_interval_ns =>
    match fc.last_presentation_time with
    | none => now0
    | some last_presentation_time =>
      let now1 :=
        if now0 ≤ last_presentation_time then
          let n := now0 + refresh_interval_ns
          if n < last_presentation_time then
            last_presentation_time + refresh_interval_ns
          else n
        else now0
      let since_last_ns := now1 - last_presentation_time
      let to_next_ns := (since_last_ns / refresh_interval_ns + 1) * refresh_interval_ns
      if fc.vrr = true ∧ refresh_interval_ns < to_next_ns then now1
      else last_presentation_time + to_next_ns

end Niri

namespace Niri

/-! ## Transaction (src/utils/transaction.rs) -/

/-- `Inner`: the shared transaction state.  Clients are identified by `Nat`;
the notification list `Option (Sender, Vec<Client>)` is modelled as
`Option (List Nat)` (the sender channel itself carries no state we track). -/
structure Inner where
  completed : Bool
  notifications : Option (List Nat)
deriving DecidableEq, Repr

/-- `Inner::is_completed`. -/
def Inner.is_completed (s : Inner) : Bool := s.completed

/-- `Inner::complete`: set the completed flag, take the notification list and
signal every recorded client.  Returns the new state together with the list
of clients signaled by this call. -/
def Inner.complete (s : Inner) : Inner × List Nat :=
  ({ completed := true, notifications := none },
   match s.notifications with
   | some clients => clients
   | none => [])

/-- `Transaction::add_notification`: rejected as a no-op when the transaction
has already completed; otherwise append the client to the (lazily created)
notification list. -/
def Inner.add_notification (s : Inner) (client : Nat) : Inner :=
  if s.is_completed then s
  else { s with notifications := some (s.notifications.getD [] ++ [client]) }

/-- `BlockerState` from smithay's compositor interface. -/
inductive BlockerState where
  | Released
  | Pending
deriving DecidableEq, Repr

/-- `TransactionBlocker::state`: the blocker holds a weak reference, modelled
as `Option Inner` (`none` when all strong references are gone, which in the
source only happens after `Drop` ran `Inner::complete`). -/
def TransactionBlocker.state (inner : Option Inner) : BlockerState :=
  if (inner.map Inner.is_completed).getD true then BlockerState.Released
  else BlockerState.Pending

/-! ## Mapped window (src/window/mapped.rs) -/

/-- Wayland serials wrap at `2^32`; `wrapping_sub` on `u32`. -/
def wrapping_sub (a b : Nat) : Nat :=
  (a % 4294967296 + (4294967296 - b % 4294967296)) % 4294967296

/-- Modelled from the spec: the wrap-safe "no older than" serial comparison
(`Serial::is_no_older_than` lives in the external smithay dependency, not in
this repository; the spec requires wrap-safe semantics, i.e. the wrapping
distance from `other` to `self` is at most `u32::MAX / 2`). -/
def Serial.is_no_older_than (a b : Nat) : Bool :=
  wrapping_sub a b ≤ 2147483647

/-- `Mapped::should_animate_commit`: `Vec::retain_mut` over
`animate_serials`, removing every entry the commit serial is no older than
and reporting whether anything was removed.  Returns
(`should_animate`, remaining `animate_serials`). -/
def Mapped.should_animate_commit (commit_serial : Nat) :
    List Nat → Bool × List Nat
  | [] => (false, [])
  | serial :: rest =>
    let r := Mapped.should_animate_commit commit_serial rest
    if Serial.is_no_older_than commit_serial serial then (true, r.2)
    else (r.1, serial :: r.2)

/-- The `Mapped` flags involved in the urgency/focus interaction. -/
structure Mapped where
  is_focused : Bool
  is_urgent : Bool
  need_to_recompute_rules : Bool
deriving DecidableEq, Repr

/-- `Mapped::set_is_focused`: no-op when unchanged; otherwise update the flag,
clear urgency and mark rules for recomputation. -/
def Mapped.set_is_focused (m : Mapped) (is_focused : Bool) : Mapped :=
  if m.is_focused = is_focused then m
  else { m with is_focused := is_focused, is_urgent := false,
                need_to_recompute_rules := true }

/-- `Mapped::set_urgent`: a focused window cannot be made urgent; otherwise
update the flag and mark rules for recomputation if it changed. -/
def Mapped.set_urgent (m : Mapped) (urgent : Bool) : Mapped :=
  if m.is_focused && urgent then m
  else
    let changed := m.is_urgent != urgent
    { m with is_urgent := urgent,
             need_to_recompute_rules := m.need_to_recompute_rules || changed }

/-- The operations of the `Mapped` model that touch the focus/urgency flags. -/
inductive MappedOp where
  | setUrgent (urgent : Bool)
  | setIsFocused (is_focused : Bool)
deriving DecidableEq, Repr

/-- One step of the `Mapped` flag model. -/
def Mapped.step (m : Mapped) : MappedOp → Mapped
  | MappedOp.setUrgent u => m.set_urgent u
  | MappedOp.setIsFocused v => m.set_is_focused v

/-! ## Spring (src/animation/spring.rs)

`f64` values are modelled as exact reals.  `f64::EPSILON = 2⁻⁵²` and
`f32::EPSILON = 2⁻²³` are the machine epsilons the source compares against. -/

/-- `f64::EPSILON`. -/
noncomputable def eps64 : ℝ := 1 / 2 ^ 52

/-- `f64::from(f32::EPSILON)`. -/
noncomputable def eps32 : ℝ := 1 / 2 ^ 23

/-- A `Duration` of `d` nanoseconds as `f64` seconds (`Duration::as_secs_f64`). -/
noncomputable def secs (d : Nat) : ℝ := (d : ℝ) / 1000000000

/-- `Duration::MAX` in seconds; `Spring::duration` is modelled as returning
seconds, with `Duration::MAX` mapped to this value and `Duration::ZERO` to 0. -/
noncomputable def durationMaxSecs : ℝ := (durationMax : ℝ) / 1000000000

/-- `f64::clamp(self, lo, hi)`. -/
noncomputable def f64clamp (x lo hi : ℝ) : ℝ := max lo (min x hi)

/-- `SpringParams`. -/
structure SpringParams where
  damping : ℝ
  mass : ℝ
  stiffness : ℝ
  epsilon : ℝ

/-- `SpringParams::new`: clamp the inputs to be non-negative, fix mass 1 and
derive the damping from the damping ratio and the critical damping. -/
noncomputable def SpringParams.new
    (damping_ratio stiffness epsilon : ℝ) : SpringParams :=
  let damping_ratio := max damping_ratio 0
  let stiffness := max stiffness 0
  let epsilon := max epsilon 0
  let mass : ℝ := 1
  let critical_damping := 2 * Real.sqrt (mass * stiffness)
  let damping := damping_ratio * critical_damping
  ⟨damping, mass, stiffness, epsilon⟩

/-- `Spring` (the Rust field `from` is `from_` here: `from` is reserved). -/
structure Spring where
  from_ : ℝ
  to_ : ℝ
  initial_velocity : ℝ
  params : SpringParams

/-- `Spring::oscillate`: closed-form position at time `t` seconds, by damping
class (critical / under / over). -/
noncomputable def Spring.oscillate (s : Spring) (t : ℝ) : ℝ :=
  let b := s.params.damping
  let m := s.params.mass
  let k := s.params.stiffness
  let v0 := s.initial_velocity
  let beta := b / (2 * m)
  let omega0 := Real.sqrt (k / m)
  let x0 := s.from_ - s.to_
  let envelope := Real.exp (-beta * t)
  if |beta - omega0| ≤ eps32 then
    s.to_ + envelope * (x0 + (beta * x0 + v0) * t)
  else if beta < omega0 then
    let omega1 := Real.sqrt (omega0 * omega0 - beta * beta)
    s.to_ + envelope *
      (x0 * Real.cos (omega1 * t) + ((beta * x0 + v0) / omega1) * Real.sin (omega1 * t))
  else
    let omega2 := Real.sqrt (beta * beta - omega0 * omega0)
    s.to_ + envelope *
      (x0 * Real.cosh (omega2 * t) + ((beta * x0 + v0) / omega2) * Real.sinh (omega2 * t))

/-- `Spring::value_at` on a `Duration` of `d` nanoseconds. -/
noncomputable def Spring.value_at (s : Spring) (d : Nat) : ℝ :=
  s.oscillate (secs d)

/-- The Newton iteration loop of `Spring::duration`, with the remaining
allowed iterations as fuel (the source allows 1001 passes before the `i >
1000` guard forces `Duration::ZERO`).  The `is_finite` bail-out of the source
cannot fire over exact reals, where every value is finite. -/
noncomputable def Spring.newtonIter (s : Spring) : Nat → ℝ → ℝ → ℝ
  | 0, x1, y1 => if |s.to_ - y1| ≤ s.params.epsilon then x1 else 0
  | fuel + 1, x1, y1 =>
    if |s.to_ - y1| ≤ s.params.epsilon then x1
    else
      let m := (s.oscillate (x1 + 0.001) - y1) / 0.001
      let x1' := (s.to_ - y1 + m * x1) / m
      s.newtonIter fuel x1' (s.oscillate x1')

/-- `Spring::duration`, in seconds (`Duration::MAX ↦ durationMaxSecs`,
`Duration::ZERO ↦ 0`). -/
noncomputable def Spring.duration (s : Spring) : ℝ :=
  let beta := s.params.damping / (2 * s.params.mass)
  if |beta| ≤ eps64 ∨ beta < 0 then durationMaxSecs
  else if |s.to_ - s.from_| ≤ eps64 then 0
  else
    let omega0 := Real.sqrt (s.params.stiffness / s.params.mass)
    let x0 := -Real.log s.params.epsilon / beta
    if |beta - omega0| ≤ eps32 ∨ beta < omega0 then x0
    else
      let y0 := s.oscillate x0
      let m := (s.oscillate (x0 + 0.001) - y0) / 0.001
      let x1 := (s.to_ - y0 + m * x0) / m
      s.newtonIter 1001 x1 (s.oscillate x1)

/-! ## Animation (src/animation/mod.rs) -/

/-- The easing curves.  The quad and cubic formulas are those of the external
`keyframe` crate, as documented at the call site (`1−(1−x)²`, `1−(1−x)³`). -/
inductive Curve where
  | Linear
  | EaseOutQuad
  | EaseOutCubic
  | EaseOutExpo
deriving DecidableEq, Repr

/-- `Curve::y`. -/
noncomputable def Curve.y : Curve → ℝ → ℝ
  | Curve.Linear, x => x
  | Curve.EaseOutQuad, x => 1 - (1 - x) ^ 2
  | Curve.EaseOutCubic, x => 1 - (1 - x) ^ 3
  | Curve.EaseOutExpo, x => 1 - (2 : ℝ) ^ (-10 * x)

/-- `Kind`: the animation kind. -/
inductive Kind where
  | easing (curve : Curve)
  | spring (s : Spring)
  | deceleration (initial_velocity deceleration_rate : ℝ)

/-- `Animation`.  The shared clock handle is replaced by explicit arguments:
`value_at` and `is_done` take the clock's `should_complete_instantly` flag
(and, for `is_done`/`value`, the clock's current time) explicitly. -/
structure Animation where
  from_ : ℝ
  to_ : ℝ
  initial_velocity : ℝ
  is_off : Bool
  duration : Nat
  clamped_duration : Nat
  start_time : Nat
  kind : Kind

/-- `Animation::value_at`.  `instantly` is the clock's
`should_complete_instantly` flag, consulted after the boundary checks exactly
as in the source. -/
noncomputable def Animation.value_at (a : Animation) (instantly : Bool)
    (at_ : Nat) : ℝ :=
  if at_ ≤ a.start_time then a.from_
  else if a.start_time + a.duration ≤ at_ then a.to_
  else if instantly then a.to_
  else
    let passed := at_ - a.start_time
    match a.kind with
    | Kind.easing curve =>
      let p := secs passed
      let total := secs a.duration
      let x := f64clamp (p / total) 0 1
      Curve.y curve x * (a.to_ - a.from_) + a.from_
    | Kind.spring sp =>
      let value := sp.value_at passed
      let range := (a.to_ - a.from_) * 10
      let lo := a.from_ - range
      let hi := a.to_ + range
      if a.from_ ≤ a.to_ then f64clamp value lo hi else f64clamp value hi lo
    | Kind.deceleration initial_velocity deceleration_rate =>
      let p := secs passed
      let coeff := 1000 * Real.log deceleration_rate
      a.from_ + (deceleration_rate ^ (1000 * p) - 1) / coeff * initial_velocity

/-- `Animation::is_done`: true when the clock requests instant completion or
the clock's current time has passed the end of the animation. -/
def Animation.is_done (a : Animation) (instantly : Bool) (now : Nat) : Bool :=
  instantly || decide (a.start_time + a.duration ≤ now)

/-- `Animation::value`: `value_at` at the clock's current time. -/
noncomputable def Animation.value (a : Animation) (instantly : Bool)
    (now : Nat) : ℝ :=
  a.value_at instantly now

/-- `Animation::value_at` specialized to `Kind::Easing` with the clock's
instant-complete flag off, over real-valued time (continuity of `value_at`
in `t` is only meaningful over ℝ; `start` and `dur` are the start time and
duration in seconds). -/
noncomputable def easing_value_at (f t0 start dur : ℝ) (c : Curve) (x : ℝ) : ℝ :=
  if x ≤ start then f
  else if start + dur ≤ x then t0
  else Curve.y c (f64clamp ((x - start) / dur) 0 1) * (t0 - f) + f

/-! ## Claim theorems: C1, C2 -/

/-- **C1.** On a sample of `AdjustableClock::now` with cached raw time `t`
(within one frame, between `clear()` calls): if the raw time moved forward the
adjusted time advances by `rate · Δraw` with saturating addition; if it
regressed the adjusted time moves backwards by `rate · Δraw` with saturating
subtraction; if it is unchanged the cached adjusted value is returned; and a
repeated `now()` call in the same frame returns the same value. -/
theorem adjustableClock_now_spec (c : AdjustableClock) (t f g : Nat)
    (h : c.time = some t) :
    (c.last_seen_time < t →
      (AdjustableClock.now c f).1 =
        saturating_add c.current_time (mul_f64 (t - c.last_seen_time) c.rate)) ∧
    (t < c.last_seen_time →
      (AdjustableClock.now c f).1 =
        saturating_sub c.current_time (mul_f64 (c.last_seen_time - t) c.rate)) ∧
    (t = c.last_seen_time → (AdjustableClock.now c f).1 = c.current_time) ∧
    (AdjustableClock.now (AdjustableClock.now c f).2 g).1 =
      (AdjustableClock.now c f).1 := by
  rw [AdjustableClock.now_cached c t f h]
  rcases Nat.lt_trichotomy c.last_seen_time t with hlt | he | hgt
  · have hne : ¬ c.last_seen_time = t := by omega
    rw [if_neg hne, if_pos hlt]
    refine ⟨fun _ => rfl, fun hx => absurd hx (by omega),
      fun hx => absurd hx (by omega), ?_⟩
    rw [AdjustableClock.now_cached _ t g rfl, if_pos rfl]
  · rw [if_pos he]
    refine ⟨fun hx => absurd hx (by omega), fun hx => absurd hx (by omega),
      fun _ => rfl, ?_⟩
    rw [AdjustableClock.now_cached _ t g rfl, if_pos he]
  · have hne : ¬ c.last_seen_time = t := by omega
    have hnl : ¬ c.last_seen_time < t := by omega
    rw [if_neg hne, if_neg hnl]
    refine ⟨fun hx => absurd hx (by omega), fun _ => rfl,
      fun hx => absurd hx (by omega), ?_⟩
    rw [AdjustableClock.now_cached _ t g rfl, if_pos rfl]

/-- Witness for C1 at a concrete clock state. -/
theorem adjustableClock_now_spec_witness :
    ((3 : Nat) < 5 →
      (AdjustableClock.now ⟨some 5, 10, 3, 1, false⟩ 0).1 =
        saturating_add 10 (mul_f64 (5 - 3) 1)) ∧
    ((5 : Nat) < 3 →
      (AdjustableClock.now ⟨some 5, 10, 3, 1, false⟩ 0).1 =
        saturating_sub 10 (mul_f64 (3 - 5) 1)) ∧
    ((5 : Nat) = 3 →
      (AdjustableClock.now ⟨some 5, 10, 3, 1, false⟩ 0).1 = 10) ∧
    (AdjustableClock.now (AdjustableClock.now ⟨some 5, 10, 3, 1, false⟩ 0).2 7).1 =
      (AdjustableClock.now ⟨some 5, 10, 3, 1, false⟩ 0).1 :=
  adjustableClock_now_spec ⟨some 5, 10, 3, 1, false⟩ 5 0 7 rfl

/-- **C2.** For a `FrameClock` with refresh interval `i > 0` and last
presented time `last`, and any monotonic `now0 ≥ last`:
`next_presentation_time` lands in `{last + k·i : k ≥ 1}` when VRR is off;
with VRR on it lands in that set or equals `now0` exactly. -/
theorem frameClock_next_presentation_time_spec
    (i last now0 : Nat) (vrr : Bool) (hi : 0 < i) (h : last ≤ now0) :
    (∃ k, 1 ≤ k ∧
      FrameClock.next_presentation_time ⟨some last, some i, vrr⟩ now0 = last + k * i) ∨
    (vrr = true ∧
      FrameClock.next_presentation_time ⟨some last, some i, vrr⟩ now0 = now0) := by
  rcases Nat.lt_or_ge last now0 with hlt | hge
  · have h1 : ¬ now0 ≤ last := by omega
    simp only [FrameClock.next_presentation_time]
    rw [if_neg h1]
    by_cases hv : vrr = true ∧ i < ((now0 - last) / i + 1) * i
    · rw [if_pos hv]
      exact Or.inr ⟨hv.1, rfl⟩
    · rw [if_neg hv]
      exact Or.inl ⟨(now0 - last) / i + 1, Nat.le_add_left 1 _, rfl⟩
  · have he : now0 = last := by omega
    subst he
    have h1 : now0 ≤ now0 := le_rfl
    have hnl : ¬ (now0 + i < now0) := by omega
    simp only [FrameClock.next_presentation_time]
    rw [if_pos h1, if_neg hnl]
    have hsl : now0 + i - now0 = i := by omega
    rw [hsl, Nat.div_self hi]
    by_cases hv : vrr = true ∧ i < (1 + 1) * i
    · rw [if_pos hv]
      exact Or.inl ⟨1, le_rfl, by omega⟩
    · rw [if_neg hv]
      exact Or.inl ⟨2, by omega, by omega⟩

/-- Witness for C2 at a 60 Hz frame clock. -/
theorem frameClock_next_presentation_time_spec_witness :
    (0 : Nat) < 16666666 ∧ (100000000 : Nat) ≤ 105000000 ∧
    ((∃ k, 1 ≤ k ∧
      FrameClock.next_presentation_time ⟨some 100000000, some 16666666, false⟩ 105000000 =
        100000000 + k * 16666666) ∨
    (false = true ∧
      FrameClock.next_presentation_time ⟨some 100000000, some 16666666, false⟩ 105000000 =
        105000000)) :=
  ⟨by norm_num, by norm_num,
    frameClock_next_presentation_time_spec 16666666 100000000 105000000 false
      (by norm_num) (by norm_num)⟩

/-! ## Claim theorems: C3, C8, C9, C10 -/

/-- **C3.** Transaction completion is one-shot and monotonic: after
`complete`, `is_completed` is true and stays true under every further
operation (`complete`, `add_notification`); completing again changes nothing
observable (same state, no further signals); and a blocker reports `Released`
iff completion has occurred (a dangling blocker — all strong references
dropped, which in the source happens only after `Drop` completed the
transaction — also reports `Released`). -/
theorem transaction_completion_one_shot (s t : Inner) (client : Nat) :
    ((Inner.complete s).1.is_completed = true) ∧
    (Inner.complete (Inner.complete s).1 = ((Inner.complete s).1, [])) ∧
    ((Inner.add_notification (Inner.complete s).1 client).is_completed = true) ∧
    (TransactionBlocker.state (some t) = BlockerState.Released ↔
      t.is_completed = true) ∧
    (TransactionBlocker.state none = BlockerState.Released) := by
  refine ⟨rfl, rfl, rfl, ?_, rfl⟩
  cases h : t.is_completed <;>
    simp [TransactionBlocker.state, h]

/-- **C8.** `should_animate_commit(s)` removes from `animate_serials` exactly
the entries that `s` is no older than, preserving the relative (FIFO append)
order of the remaining entries; it returns true iff at least one entry was
removed; and afterwards no entry matching `s` remains. -/
theorem should_animate_commit_spec (commit_serial : Nat) (serials : List Nat) :
    (Mapped.should_animate_commit commit_serial serials).2 =
      serials.filter (fun s => ! Serial.is_no_older_than commit_serial s) ∧
    (Mapped.should_animate_commit commit_serial serials).1 =
      serials.any (fun s => Serial.is_no_older_than commit_serial s) ∧
    ∀ s ∈ (Mapped.should_animate_commit commit_serial serials).2,
      Serial.is_no_older_than commit_serial s = false := by
  have h2 : (Mapped.should_animate_commit commit_serial serials).2 =
      serials.filter (fun s => ! Serial.is_no_older_than commit_serial s) ∧
      (Mapped.should_animate_commit commit_serial serials).1 =
        serials.any (fun s => Serial.is_no_older_than commit_serial s) := by
    induction serials with
    | nil => exact ⟨rfl, rfl⟩
    | cons a rest ih =>
      cases ha : Serial.is_no_older_than commit_serial a <;>
        simp [Mapped.should_animate_commit, ha, ih.1, ih.2]
  refine ⟨h2.1, h2.2, ?_⟩
  intro s hs
  rw [h2.1] at hs
  have hp := List.of_mem_filter hs
  simpa using hp

/-- **C9.** The urgent and focused flags are never simultaneously true:
`set_urgent(true)` on a focused window leaves the urgent flag unchanged,
`set_is_focused(true)` on an unfocused window clears the urgent flag, and
every operation of the `Mapped` flag model preserves
`¬(is_focused ∧ is_urgent)`. -/
theorem mapped_urgent_focused_invariant (m : Mapped) (op : MappedOp)
    (h : ¬ (m.is_focused = true ∧ m.is_urgent = true)) :
    ((m.is_focused = true → (m.set_urgent true).is_urgent = m.is_urgent) ∧
     (m.is_focused = false → (m.set_is_focused true).is_urgent = false) ∧
     ¬ ((m.step op).is_focused = true ∧ (m.step op).is_urgent = true)) := by
  obtain ⟨f, u, n⟩ := m
  cases op with
  | setUrgent b =>
    cases f <;> cases u <;> cases b <;>
      simp_all [Mapped.step, Mapped.set_urgent, Mapped.set_is_focused]
  | setIsFocused b =>
    cases f <;> cases u <;> cases b <;>
      simp_all [Mapped.step, Mapped.set_urgent, Mapped.set_is_focused]

/-- Witness for C9 at a concrete window state and operation. -/
theorem mapped_urgent_focused_invariant_witness :
    ((Mapped.is_focused ⟨false, false, false⟩ = true →
      (Mapped.set_urgent ⟨false, false, false⟩ true).is_urgent =
        Mapped.is_urgent ⟨false, false, false⟩) ∧
     (Mapped.is_focused ⟨false, false, false⟩ = false →
      (Mapped.set_is_focused ⟨false, false, false⟩ true).is_urgent = false) ∧
     ¬ ((Mapped.step ⟨false, false, false⟩ (MappedOp.setUrgent true)).is_focused = true ∧
        (Mapped.step ⟨false, false, false⟩ (MappedOp.setUrgent true)).is_urgent = true)) :=
  mapped_urgent_focused_invariant ⟨false, false, false⟩ (MappedOp.setUrgent true)
    (by decide)

/-- **C10.** `add_notification` on an already-completed transaction is a
rejected no-op: the state (including the notification list) is unchanged, and
the client is never signaled (a later `complete` emits the same signals as it
would have without the call). -/
theorem add_notification_after_completion_noop (s : Inner) (client : Nat)
    (h : s.completed = true) :
    Inner.add_notification s client = s ∧
    (Inner.complete (Inner.add_notification s client)).2 =
      (Inner.complete s).2 := by
  have hno : Inner.add_notification s client = s := by
    simp [Inner.add_notification, Inner.is_completed, h]
  exact ⟨hno, by rw [hno]⟩

/-- Witness for C10 on a completed transaction state. -/
theorem add_notification_after_completion_noop_witness :
    Inner.add_notification ⟨true, none⟩ 7 = (⟨true, none⟩ : Inner) ∧
    (Inner.complete (Inner.add_notification ⟨true, none⟩ 7)).2 =
      (Inner.complete ⟨true, none⟩).2 :=
  add_notification_after_completion_noop ⟨true, none⟩ 7 rfl

/-! ## Claim theorems: C4, C5, C6, C7 -/

/-- A zero-duration easing animation from 0 to 1 starting at time 0. -/
noncomputable def zeroDurAnim : Animation :=
  ⟨0, 1, 0, false, 0, 0, 0, Kind.easing Curve.Linear⟩

/-- An easing animation from 0 to 1 with 1 s duration starting at 100 ns. -/
noncomputable def lateStartAnim : Animation :=
  ⟨0, 1, 0, false, 1000000000, 1000000000, 100, Kind.easing Curve.EaseOutCubic⟩

/-- **C4 counterexample.** For a zero-duration animation with `from ≠ to`,
at `t = start_time` (so `t ≥ start_time + duration`) `value_at` returns
`from`, not `to`: the `t ≤ start_time` branch takes priority. -/
theorem animation_value_at_end_counterexample :
    zeroDurAnim.start_time + zeroDurAnim.duration ≤ 0 ∧
    Animation.value_at zeroDurAnim false 0 ≠ zeroDurAnim.to_ := by
  refine ⟨by norm_num [zeroDurAnim], ?_⟩
  simp only [Animation.value_at, zeroDurAnim]
  norm_num

/-- **C4 (amended).** For every animation of any kind and any state of the
instant-complete flag, `value_at(t) = to` for every `t ≥ start_time +
duration` that is also strictly after `start_time` (at `t ≤ start_time` the
source returns `from` instead, even when the duration is zero). -/
theorem animation_value_at_after_end (a : Animation) (instantly : Bool)
    (t : Nat) (h1 : a.start_time + a.duration ≤ t) (h2 : a.start_time < t) :
    Animation.value_at a instantly t = a.to_ := by
  have hn : ¬ t ≤ a.start_time := by omega
  unfold Animation.value_at
  rw [if_neg hn, if_pos h1]

/-- Witness for C4 (amended) on the zero-duration animation at `t = 5`. -/
theorem animation_value_at_after_end_witness :
    zeroDurAnim.start_time + zeroDurAnim.duration ≤ 5 ∧
    zeroDurAnim.start_time < 5 ∧
    Animation.value_at zeroDurAnim true 5 = zeroDurAnim.to_ :=
  ⟨by norm_num [zeroDurAnim], by norm_num [zeroDurAnim],
   animation_value_at_after_end zeroDurAnim true 5 (by norm_num [zeroDurAnim])
     (by norm_num [zeroDurAnim])⟩

/-- **C5 counterexample.** The ease-out-expo curve does not satisfy
`curve(1) = 1`: its value at 1 is `1 − 2⁻¹⁰`. -/
theorem curve_expo_one_counterexample :
    Curve.y Curve.EaseOutExpo 1 ≠ 1 := by
  simp only [Curve.y]
  intro h
  have h0 : (0:ℝ) < (2:ℝ) ^ (-10 * (1:ℝ)) :=
    Real.rpow_pos_of_pos (by norm_num) _
  linarith

/-- **C5 (amended).** All four curves satisfy `curve(0) = 0`; the linear,
ease-out-quad and ease-out-cubic curves additionally satisfy `curve(1) = 1`,
and for them the easing `value_at` is continuous in `t` (ease-out-expo has
`curve(1) = 1 − 2⁻¹⁰ ≠ 1`, making the easing value jump at
`t = start + duration`). -/
theorem easing_curve_spec (c : Curve) (h : c ≠ Curve.EaseOutExpo) :
    Curve.y Curve.EaseOutExpo 0 = 0 ∧
    Curve.y c 0 = 0 ∧ Curve.y c 1 = 1 ∧
    ∀ f t0 start dur : ℝ, 0 < dur →
      Continuous (easing_value_at f t0 start dur c) := by
  have hexpo0 : Curve.y Curve.EaseOutExpo 0 = 0 := by
    simp only [Curve.y]
    rw [show (-10 * (0:ℝ)) = 0 by ring, Real.rpow_zero]
    norm_num
  have hy0 : Curve.y c 0 = 0 := by
    cases c
    · rfl
    · norm_num [Curve.y]
    · norm_num [Curve.y]
    · exact hexpo0
  have hy1 : Curve.y c 1 = 1 := by
    cases c
    · rfl
    · norm_num [Curve.y]
    · norm_num [Curve.y]
    · exact absurd rfl h
  have hyc : Continuous (Curve.y c) := by
    cases c
    · exact continuous_id
    · show Continuous fun x : ℝ => 1 - (1 - x) ^ 2
      fun_prop
    · show Continuous fun x : ℝ => 1 - (1 - x) ^ 3
      fun_prop
    · exact absurd rfl h
  refine ⟨hexpo0, hy0, hy1, ?_⟩
  intro f t0 start dur hdur
  have hclamp : Continuous fun x : ℝ => f64clamp ((x - start) / dur) 0 1 := by
    unfold f64clamp
    exact continuous_const.max
      (((continuous_id.sub continuous_const).div_const dur).min continuous_const)
  have hmid : Continuous fun x : ℝ =>
      Curve.y c (f64clamp ((x - start) / dur) 0 1) * (t0 - f) + f :=
    ((hyc.comp hclamp).mul continuous_const).add continuous_const
  have hinner : Continuous fun x : ℝ =>
      if start + dur ≤ x then t0
      else Curve.y c (f64clamp ((x - start) / dur) 0 1) * (t0 - f) + f := by
    refine Continuous.if_le continuous_const hmid continuous_const continuous_id ?_
    intro x hx
    show t0 = Curve.y c (f64clamp ((x - start) / dur) 0 1) * (t0 - f) + f
    have hx1 : (x - start) / dur = 1 := by
      rw [← hx, add_sub_cancel_left, div_self (ne_of_gt hdur)]
    rw [hx1, show f64clamp 1 0 1 = 1 from by norm_num [f64clamp], hy1]
    ring
  show Continuous fun x : ℝ =>
    if x ≤ start then f
    else if start + dur ≤ x then t0
    else Curve.y c (f64clamp ((x - start) / dur) 0 1) * (t0 - f) + f
  refine Continuous.if_le continuous_const hinner continuous_id continuous_const ?_
  intro x hx
  show f = if start + dur ≤ x then t0
    else Curve.y c (f64clamp ((x - start) / dur) 0 1) * (t0 - f) + f
  rw [if_neg (show ¬ start + dur ≤ x by rw [hx]; intro hc; linarith)]
  rw [hx, show (start - start) / dur = 0 by rw [sub_self, zero_div]]
  rw [show f64clamp 0 0 1 = 0 from by norm_num [f64clamp], hy0]
  ring

/-- Witness for C5 (amended) at the ease-out-cubic curve. -/
theorem easing_curve_spec_witness :
    Curve.EaseOutCubic ≠ Curve.EaseOutExpo ∧
    Curve.y Curve.EaseOutExpo 0 = 0 ∧
    Curve.y Curve.EaseOutCubic 0 = 0 ∧ Curve.y Curve.EaseOutCubic 1 = 1 ∧
    Continuous (easing_value_at 0 1 0 1 Curve.EaseOutCubic) :=
  ⟨by decide, (easing_curve_spec Curve.EaseOutCubic (by decide)).1,
   (easing_curve_spec Curve.EaseOutCubic (by decide)).2.1,
   (easing_curve_spec Curve.EaseOutCubic (by decide)).2.2.1,
   (easing_curve_spec Curve.EaseOutCubic (by decide)).2.2.2 0 1 0 1 (by norm_num)⟩

/-- A spring with equal endpoints whose damping ratio is zero, so that the
computed damping (hence β) is zero. -/
noncomputable def zeroDampingSpring : Spring :=
  ⟨0, 0, 0, SpringParams.new 0 100 (1/10000)⟩

/-- **C6 counterexample.** For a spring with `from = to` and zero initial
velocity built from a zero damping ratio, `duration()` returns
`Duration::MAX`, not `Duration::ZERO`: the `β ≈ 0` check fires before the
`from = to` check. -/
theorem spring_duration_zero_beta_counterexample :
    zeroDampingSpring.from_ = zeroDampingSpring.to_ ∧
    zeroDampingSpring.initial_velocity = 0 ∧
    Spring.duration zeroDampingSpring ≠ 0 := by
  refine ⟨rfl, rfl, ?_⟩
  have hd : zeroDampingSpring.params.damping = 0 := by
    simp [zeroDampingSpring, SpringParams.new]
  have hbeta : zeroDampingSpring.params.damping /
      (2 * zeroDampingSpring.params.mass) = 0 := by
    rw [hd, zero_div]
  simp only [Spring.duration]
  rw [hbeta, if_pos (Or.inl (by rw [abs_zero]; norm_num [eps64]))]
  have hpos : (0:ℝ) < durationMaxSecs := by
    unfold durationMaxSecs
    apply div_pos
    · exact_mod_cast Nat.pos_of_ne_zero (by norm_num [durationMax])
    · norm_num
  exact ne_of_gt hpos

/-- **C6 (amended).** For every spring with `from = to` and zero initial
velocity, `value_at(t) = to` for all `t`; `duration()` returns
`Duration::ZERO` provided `β = damping/(2·mass)` exceeds `f64::EPSILON`
(otherwise the degenerate-β check fires first and returns `Duration::MAX`). -/
theorem spring_equal_endpoints_spec (s : Spring) (h1 : s.from_ = s.to_)
    (h2 : s.initial_velocity = 0) :
    (∀ t : ℝ, s.oscillate t = s.to_) ∧
    (∀ d : Nat, s.value_at d = s.to_) ∧
    (eps64 < s.params.damping / (2 * s.params.mass) → s.duration = 0) := by
  have hosc : ∀ t : ℝ, s.oscillate t = s.to_ := by
    intro t
    simp only [Spring.oscillate]
    rw [h1, h2, sub_self]
    split_ifs <;> simp
  refine ⟨hosc, fun d => hosc _, ?_⟩
  intro hb
  have hpos : (0:ℝ) < s.params.damping / (2 * s.params.mass) :=
    lt_trans (by norm_num [eps64]) hb
  have hA : ¬ (|s.params.damping / (2 * s.params.mass)| ≤ eps64 ∨
      s.params.damping / (2 * s.params.mass) < 0) := by
    push_neg
    refine ⟨?_, le_of_lt hpos⟩
    rw [abs_of_pos hpos]
    exact hb
  have hB : |s.to_ - s.from_| ≤ eps64 := by
    rw [h1, sub_self, abs_zero]
    norm_num [eps64]
  simp only [Spring.duration]
  rw [if_neg hA, if_pos hB]

/-- Witness for C6 (amended) on a concrete equal-endpoint spring. -/
theorem spring_equal_endpoints_spec_witness :
    Spring.oscillate ⟨0, 0, 0, ⟨1, 1, 100, 1/1000⟩⟩ 2 = (0:ℝ) ∧
    Spring.value_at ⟨0, 0, 0, ⟨1, 1, 100, 1/1000⟩⟩ 5 = (0:ℝ) ∧
    Spring.duration ⟨0, 0, 0, ⟨1, 1, 100, 1/1000⟩⟩ = 0 := by
  obtain ⟨hA, hB, hC⟩ :=
    spring_equal_endpoints_spec ⟨0, 0, 0, ⟨1, 1, 100, 1/1000⟩⟩ rfl rfl
  exact ⟨hA 2, hB 5, hC (by norm_num [eps64])⟩

/-- **C7 counterexample.** With the clock's instant-complete flag set,
`is_done` is true but `value` at a clock time equal to `start_time` returns
`from`, not `to`: the `t ≤ start_time` branch of `value_at` takes priority
over the instant-complete check. -/
theorem instant_complete_value_counterexample :
    Animation.is_done lateStartAnim true 100 = true ∧
    Animation.value lateStartAnim true 100 ≠ lateStartAnim.to_ := by
  refine ⟨rfl, ?_⟩
  simp only [Animation.value, Animation.value_at, lateStartAnim]
  norm_num

/-- **C7 (amended).** With the clock's instant-complete flag set, `is_done`
is true for every clock time, and `value` returns `to` at every clock time
strictly after `start_time` (at clock times at or before `start_time` the
source returns `from` instead). -/
theorem animation_instant_complete (a : Animation) (m now : Nat)
    (h : a.start_time < now) :
    Animation.is_done a true m = true ∧
    Animation.value a true now = a.to_ := by
  refine ⟨rfl, ?_⟩
  have hn : ¬ now ≤ a.start_time := by omega
  unfold Animation.value Animation.value_at
  rw [if_neg hn]
  by_cases h2 : a.start_time + a.duration ≤ now
  · rw [if_pos h2]
  · rw [if_neg h2, if_pos rfl]

/-- Witness for C7 (amended) at a clock time after the start. -/
theorem animation_instant_complete_witness :
    lateStartAnim.start_time < 200 ∧
    Animation.is_done lateStartAnim true 0 = true ∧
    Animation.value lateStartAnim true 200 = lateStartAnim.to_ :=
  ⟨by norm_num [lateStartAnim],
   (animation_instant_complete lateStartAnim 0 200 (by norm_num [lateStartAnim])).1,
   (animation_instant_complete lateStartAnim 0 200 (by norm_num [lateStartAnim])).2⟩

end Niri
